import Mathlib

/-! Shallow embedding of the segment-assembly pipeline and the result cache of the
PharmExtract report structurer, together with proofs of the specified
properties.

The definitions mirror, item by item, the Python sources:
  * `structure_report.py` — the `RadiologyReportStructurer` pipeline
    (section mapper, interval resolver, segment builder, organizer, renderer);
  * `cache_manager.py` — the `CacheManager` store.

Python strings are modelled as Lean `String`s, Python `int` as `Int`
(arbitrary precision), `None`-able values as `Option`, dictionaries as
association lists, and exceptions as `Except`.  External collaborators
(the LangExtract engine call, the MD5 content hash and the markdown prompt
generator) are passed in as function parameters: the pipeline and the claims
are independent of their concrete behaviour.
-/

namespace PharmExtract

/-! Python string primitives

`str.strip` / `lstrip` / `rstrip` remove characters of the Python whitespace
set from the ends of a string; `str.lower` / `str.upper` fold ASCII case.
-/

/-- The characters Python's `str.strip()` family removes. -/
def isPySpace (c : Char) : Bool :=
  c = ' ' || c = '\t' || c = '\n' || c = '\r' ||
  c = Char.ofNat 11 || c = Char.ofNat 12

/-- Model of `str.lstrip()` on the character list. -/
def pyLStripList (cs : List Char) : List Char :=
  cs.dropWhile isPySpace

/-- Model of `str.rstrip()` on the character list. -/
def pyRStripList (cs : List Char) : List Char :=
  (cs.reverse.dropWhile isPySpace).reverse

/-- Python `str.lstrip()`. -/
def pyLStrip (s : String) : String :=
  ⟨pyLStripList s.data⟩

/-- Python `str.rstrip()`. -/
def pyRStrip (s : String) : String :=
  ⟨pyRStripList s.data⟩

/-- Python `str.strip()`. -/
def pyStrip (s : String) : String :=
  ⟨pyRStripList (pyLStripList s.data)⟩

/-- Python `str.lower()` (ASCII case fold, which covers every label and
class string the pipeline compares). -/
def pyLower (s : String) : String :=
  ⟨s.data.map Char.toLower⟩

/-- Python `str.upper()`. -/
def pyUpper (s : String) : String :=
  ⟨s.data.map Char.toUpper⟩

/-- Python `str.startswith` (character-wise prefix test). -/
def pyStartsWith (s p : String) : Bool :=
  p.data.isPrefixOf s.data

/-! Data model (`structure_report.py`) -/

/-- Model of `ReportSectionType`: the three zones, with their extraction class
names as `value`. -/
inductive ReportSectionType where
  | PREFIX
  | BODY
  | SUFFIX
deriving DecidableEq

/-- Model of `ReportSectionType.value` — the enum member value. -/
def ReportSectionType.value : ReportSectionType → String
  | .PREFIX => "findings_prefix"
  | .BODY => "findings_body"
  | .SUFFIX => "findings_suffix"

/-- Model of `ReportSectionType.display_name` — the lowercase member name. -/
def ReportSectionType.display_name : ReportSectionType → String
  | .PREFIX => "prefix"
  | .BODY => "body"
  | .SUFFIX => "suffix"

/-- Model of `FrontendIntervalDict`: `{startPos, endPos}` as handed to the frontend. -/
structure FrontendInterval where
  startPos : Int
  endPos : Int
deriving DecidableEq

/-- A Python value sitting in a `start_pos` / `end_pos` slot of a character
interval: `None`, an `int`, a range-like object exposing `.start` / `.stop`
(whose components are again such values), or any other object on which
`int(...)` raises. -/
inductive PyObj where
  | pyNone
  | pyInt (n : Int)
  | rangeLike (start stop : Option Int)
  | nonNumeric
deriving DecidableEq

/-- Model of `Segment`: the core's per-interval renderable unit.  `label` is
`str | None` in the source, hence `Option String` here. -/
structure Segment where
  type : ReportSectionType
  label : Option String
  content : String
  intervals : List FrontendInterval
  significance : Option String
deriving DecidableEq

/-- Model of `SegmentDict` — `Segment.to_dict()` output. -/
structure SegmentDict where
  type : String
  label : Option String
  content : String
  intervals : List FrontendInterval
  significance : Option String
deriving DecidableEq

/-- Model of `Segment.to_dict`. -/
def Segment.to_dict (s : Segment) : SegmentDict :=
  { type := s.type.display_name
    label := s.label
    content := s.content
    intervals := s.intervals
    significance := s.significance }

/-- Model of `langextract.data.Extraction`, restricted to the fields the pipeline
reads.  `attributes` is `dict[str, str] | None`; `char_interval` is `None`
or an object/dict with `start_pos` / `end_pos` slots. -/
structure Extraction where
  extraction_text : String
  extraction_class : String
  attributes : Option (List (String × String))
  char_interval : Option (PyObj × PyObj)
  alignment_status : Option String
deriving DecidableEq

/-! Section mapper and interval resolver -/

/-- Model of `RadiologyReportStructurer._map_section`: lower-cases and strips the
class string, consults the pharmaceutical table, then falls back to the
enum values three members in declaration order. -/
def map_section (extraction_class : String) : Option ReportSectionType :=
  let c := pyStrip (pyLower extraction_class)
  if c = "document_header" then some .PREFIX
  else if c = "methodology_body" then some .BODY
  else if c = "results_body" then some .BODY
  else if c = "conclusions_suffix" then some .SUFFIX
  else if c = ReportSectionType.PREFIX.value then some .PREFIX
  else if c = ReportSectionType.BODY.value then some .BODY
  else if c = ReportSectionType.SUFFIX.value then some .SUFFIX
  else none

/-- Model of `int(obj)` on an endpoint slot after the range-like unwrapping has been
done: `None` stays `None` (the source guards with `is not None`), an `int`
converts to itself, anything else raises (`Except.error`). -/
def pyIntOfObj : PyObj → Except Unit (Option Int)
  | .pyNone => .ok none
  | .pyInt n => .ok (some n)
  | .rangeLike _ _ => .error ()
  | .nonNumeric => .error ()

/-- Model of `hasattr(start_obj, "start")` unwrapping: a range-like start slot is
replaced by its `.start` component. -/
def unwrapStart : PyObj → PyObj
  | .rangeLike s _ => match s with
    | some n => .pyInt n
    | none => .pyNone
  | o => o

/-- Model of `hasattr(end_obj, "stop")` unwrapping: a range-like end slot is replaced
by its `.stop` component. -/
def unwrapStop : PyObj → PyObj
  | .rangeLike _ e => match e with
    | some n => .pyInt n
    | none => .pyNone
  | o => o

/-- Model of `RadiologyReportStructurer._extract_positions`: unwrap range-like
objects, coerce both endpoints with `int(...)`, return the pair when both
are present, `(None, None)` otherwise; any coercion error is caught. -/
def extract_positions (start_obj end_obj : PyObj) : Option Int × Option Int :=
  let s := unwrapStart start_obj
  let e := unwrapStop end_obj
  match pyIntOfObj s, pyIntOfObj e with
  | .ok (some sp), .ok (some ep) => (some sp, some ep)
  | _, _ => (none, none)

/-- Model of `RadiologyReportStructurer._get_intervals_from_extraction_dict`:
a present `char_interval` contributes at most one `{startPos, endPos}`
record; a missing interval or unresolvable endpoints contribute none, and
nothing ever raises. -/
def get_intervals_from_extraction_dict
    (char_interval : Option (PyObj × PyObj)) : List FrontendInterval :=
  match char_interval with
  | none => []
  | some (sp, ep) =>
    match extract_positions sp ep with
    | (some s, some e) => [{ startPos := s, endPos := e }]
    | _ => []

/-! Segment builder -/

/-- Model of `RadiologyReportStructurer._determine_section_label`: the non-empty
`section` attribute when the attribute dict is truthy and carries one,
otherwise the zone's display name. -/
def determine_section_label
    (attributes : Option (List (String × String)))
    (section_type : ReportSectionType) : String :=
  match attributes with
  | some attrs =>
    if attrs.isEmpty then section_type.display_name
    else
      match attrs.lookup "section" with
      | some l => if l = "" then section_type.display_name else l
      | none => section_type.display_name
  | none => section_type.display_name

/-- Model of `RadiologyReportStructurer._extract_clinical_significance`: the
lower-cased `clinical_significance` attribute of a truthy attribute dict,
absent otherwise. -/
def extract_clinical_significance
    (attributes : Option (List (String × String))) : Option String :=
  match attributes with
  | some attrs =>
    if attrs.isEmpty then none
    else (attrs.lookup "clinical_significance").map pyLower
  | none => none

/-- Model of `RadiologyReportStructurer._create_segments_for_intervals`: an empty
interval list yields one interval-less segment, otherwise one segment per
interval. -/
def create_segments_for_intervals
    (section_type : ReportSectionType) (section_label : String)
    (content : String) (intervals : List FrontendInterval)
    (significance : Option String) : List Segment :=
  if intervals.isEmpty then
    [{ type := section_type, label := some section_label, content := content
       intervals := [], significance := significance }]
  else
    intervals.map fun interval =>
      { type := section_type, label := some section_label, content := content
        intervals := [interval], significance := significance }

/-- Model of `RadiologyReportStructurer._build_segments_from_langextract_result`:
extractions whose class does not map are skipped, every other extraction is
expanded by `create_segments_for_intervals`. -/
def build_segments_from_langextract_result
    (extractions : List Extraction) : List Segment :=
  extractions.flatMap fun extraction =>
    match map_section extraction.extraction_class with
    | none => []
    | some section_type =>
      create_segments_for_intervals
        section_type
        (determine_section_label extraction.attributes section_type)
        extraction.extraction_text
        (get_intervals_from_extraction_dict extraction.char_interval)
        (extract_clinical_significance extraction.attributes)

/-! Segment organizer -/

/-- The loop of `_organize_segments_by_label` that fills `labels_in_order`:
walk the BODY segments, appending each truthy label the first time it is
seen (`acc` is the list built so far). -/
def collectLabels (acc : List String) : List Segment → List String
  | [] => acc
  | s :: rest =>
    match s.label with
    | none => collectLabels acc rest
    | some l =>
      if l = "" then collectLabels acc rest
      else if l ∈ acc then collectLabels acc rest
      else collectLabels (acc ++ [l]) rest

/-- Model of `RadiologyReportStructurer._organize_segments_by_label`: prefix
segments, then the body segments regrouped by their (truthy) label in
first-appearance order, then suffix segments.  Body segments whose label is
`None` or `""` join no group. -/
def organize_segments_by_label (segments : List Segment) : List Segment :=
  let prefix_segments := segments.filter fun s => decide (s.type = .PREFIX)
  let body_segments := segments.filter fun s => decide (s.type = .BODY)
  let suffix_segments := segments.filter fun s => decide (s.type = .SUFFIX)
  let labels_in_order := collectLabels [] body_segments
  prefix_segments ++
    (labels_in_order.flatMap fun l =>
      body_segments.filter fun s => decide (s.label = some l)) ++
    suffix_segments

/-! Text renderer -/

/-- Model of `RadiologyReportStructurer._strip_exam_prefix`: remove a leading
`EXAMINATION:` / `EXAM:` / `STUDY:` token (checked on the upper-cased text,
in that order) and left-strip; with no token, strip both ends. -/
def strip_exam_marker (text : String) : String :=
  let upper := pyUpper text
  if pyStartsWith upper "EXAMINATION:" then
    pyLStrip (text.drop "EXAMINATION:".length)
  else if pyStartsWith upper "EXAM:" then
    pyLStrip (text.drop "EXAM:".length)
  else if pyStartsWith upper "STUDY:" then
    pyLStrip (text.drop "STUDY:".length)
  else pyStrip text

/-- A grouping key: `(segment type, segment label)`. -/
abbrev GroupKey := ReportSectionType × Option String

/-- One step of `_group_segments_by_type_and_label`'s loop:
`grouped.setdefault(key, [])`, then append `seg.content.strip()` when the
raw `seg.content` is not already a member of the group's list. -/
def groupInsert (grouped : List (GroupKey × List String))
    (key : GroupKey) (content : String) : List (GroupKey × List String) :=
  match grouped with
  | [] => [(key, [pyStrip content])]
  | (k, cs) :: rest =>
    if k = key then
      (k, if content ∈ cs then cs else cs ++ [pyStrip content]) :: rest
    else
      (k, cs) :: groupInsert rest key content

/-- Model of `RadiologyReportStructurer._group_segments_by_type_and_label`: an
insertion-ordered dict from `(type, label)` to the group's content list. -/
def group_segments_by_type_and_label
    (segments : List Segment) : List (GroupKey × List String) :=
  segments.foldl (fun acc seg => groupInsert acc (seg.type, seg.label) seg.content) []

/-- Model of `seg.label and seg.label.lower() != PREFIX_LABEL` — a truthy label that
is not (case-insensitively) the bare `"prefix"` default. -/
def labelTruthyNonDefault : Option String → Bool
  | some l => l ≠ "" && pyLower l ≠ "prefix"
  | none => false

/-- Model of `label and label.lower() == EXAMINATION_LABEL`. -/
def labelIsExam : Option String → Bool
  | some l => l ≠ "" && pyLower l = "examination"
  | none => false

/-- Model of `RadiologyReportStructurer._render_prefix_sections`: returns the lines
this renderer appends to `formatted_parts` (it never reads them).  With a
structured prefix present, each PREFIX group contributes its block in
grouping order (the `continue` for other zones becomes an empty
contribution); otherwise all PREFIX contents are joined with blank lines. -/
def render_prefix_sections
    (grouped : List (GroupKey × List String))
    (segments : List Segment) : List String :=
  let structured_prefix_exists := segments.any fun seg =>
    decide (seg.type = .PREFIX) && labelTruthyNonDefault seg.label
  if structured_prefix_exists then
    grouped.flatMap fun g =>
      if g.1.1 ≠ ReportSectionType.PREFIX then []
      else if labelIsExam g.1.2 then
        ["EXAMINATION:", ""] ++
          (g.2.flatMap fun c =>
            let stripped := strip_exam_marker c
            if stripped ≠ "" then [stripped] else []) ++ [""]
      else if labelTruthyNonDefault g.1.2 then
        (g.2.flatMap fun c => if c ≠ "" then [c] else []) ++ [""]
      else
        (g.2.flatMap fun c => if c ≠ "" then [c] else []) ++ [""]
  else
    let plain := grouped.flatMap fun g =>
      if g.1.1 = ReportSectionType.PREFIX then g.2 else []
    if plain.isEmpty then [] else [pyRStrip (String.intercalate "\n\n" plain)]

/-- Python `f"{label}: ..."` on a `str | None` label. -/
def labelText : Option String → String
  | some l => l
  | none => "None"

/-- Model of `RadiologyReportStructurer._render_body_sections`: takes the parts
accumulated so far (it checks their truthiness) and returns the extended
list. -/
def render_body_sections
    (grouped : List (GroupKey × List String))
    (parts : List String) : List String :=
  let body_items := grouped.filter fun g => decide (g.1.1 = ReportSectionType.BODY)
  if body_items.isEmpty then parts
  else
    (parts ++ (if parts.isEmpty then [] else [""]) ++ ["FINDINGS:", ""]) ++
      body_items.flatMap fun g =>
        let combined := pyStrip (String.intercalate " " g.2)
        if combined ≠ "" then [labelText g.1.2 ++ ": " ++ combined, ""] else []

/-- Model of `RadiologyReportStructurer._render_suffix_sections`: appends a blank
line when the last part so far is non-blank, then the `IMPRESSION:` banner
and the joined suffix block. -/
def render_suffix_sections
    (grouped : List (GroupKey × List String))
    (parts : List String) : List String :=
  let suffix_items := grouped.filter fun g => decide (g.1.1 = ReportSectionType.SUFFIX)
  if suffix_items.isEmpty then parts
  else
    let sep := match parts.getLast? with
      | some last => if pyStrip last ≠ "" then [""] else []
      | none => []
    parts ++ sep ++ ["IMPRESSION:", ""] ++
      [pyRStrip (String.intercalate "\n" (suffix_items.flatMap Prod.snd))]

/-- Model of `RadiologyReportStructurer._format_segments_to_text`. -/
def format_segments_to_text (segments : List Segment) : String :=
  let grouped := group_segments_by_type_and_label segments
  let p1 := render_prefix_sections grouped segments
  let p2 := render_body_sections grouped p1
  let p3 := render_suffix_sections grouped p2
  pyRStrip (String.intercalate "\n" p3)

/-! Response assembly and `predict` -/

/-- Model of `SerializedExtractionDict` — `_serialize_single_extraction` output. -/
structure SerializedExtraction where
  extraction_text : String
  extraction_class : String
  attributes : Option (List (String × String))
  char_interval : Option (PyObj × PyObj)
  alignment_status : Option String
deriving DecidableEq

/-- Model of `RadiologyReportStructurer._serialize_extraction_results` on a result
that does carry an extraction list. -/
def serialize_extraction_results (extractions : List Extraction) :
    List SerializedExtraction :=
  extractions.map fun e =>
    { extraction_text := e.extraction_text
      extraction_class := e.extraction_class
      attributes := e.attributes
      char_interval := e.char_interval
      alignment_status := e.alignment_status }

/-- Model of `ResponseDict`. -/
structure ResponseDict where
  segments : List SegmentDict
  annotated_document_json : List SerializedExtraction
  text : String
  raw_prompt : String
deriving DecidableEq

/-- The Python exceptions `predict` distinguishes: the three caught classes
and everything else. -/
inductive PyExc where
  | valueError (msg : String)
  | typeError (msg : String)
  | attributeError (msg : String)
  | other (msg : String)
deriving DecidableEq

/-- Which exceptions the `except (ValueError, TypeError, AttributeError)`
clause of `predict` catches. -/
def PyExc.caught : PyExc → Bool
  | .valueError _ => true
  | .typeError _ => true
  | .attributeError _ => true
  | .other _ => false

/-- Model of `str(e)` for the modelled exceptions. -/
def PyExc.message : PyExc → String
  | .valueError m => m
  | .typeError m => m
  | .attributeError m => m
  | .other m => m

/-- Model of `RadiologyReportStructurer._build_response`.  The markdown prompt
generator (`prompt_lib.generate_markdown_prompt` with the structurer's
examples) is passed in as `promptGen`. -/
def build_response (promptGen : String → String)
    (extractions : List Extraction) (report_text : String) : ResponseDict :=
  let segments := build_segments_from_langextract_result extractions
  let organized_segments := organize_segments_by_label segments
  { segments := organized_segments.map Segment.to_dict
    annotated_document_json := serialize_extraction_results extractions
    text := format_segments_to_text organized_segments
    raw_prompt := promptGen report_text }

/-- Model of `RadiologyReportStructurer.predict`.  The LangExtract call
(`_perform_langextract`) is the external collaborator `pipeline`; it either
returns the extraction list of an annotated document or raises.  Empty and
whitespace-only input raises `ValueError` before the pipeline runs; a
caught pipeline exception becomes the error payload; any other exception
propagates. -/
def predict (pipeline : String → Except PyExc (List Extraction))
    (promptGen : String → String)
    (report_text : String) : Except PyExc ResponseDict :=
  if pyStrip report_text = "" then
    .error (.valueError "Report text cannot be empty")
  else
    match pipeline report_text with
    | .ok result => .ok (build_response promptGen result report_text)
    | .error e =>
      if e.caught then
        .ok { text := "Error processing report: " ++ e.message
              segments := []
              annotated_document_json := []
              raw_prompt := "" }
      else .error e

/-! Cache store (`cache_manager.py`)

The store state is the in-memory dict plus the JSON file contents;
`_save_cache` copies the dict to the file (directory creation and I/O are
assumed to succeed — cache I/O failure is out of the claims' scope).
Payloads are opaque (`α`); the MD5 hex digest is the external function
`hash`.
-/

/-- Python dict assignment `d[k] = v` on an association list. -/
def dictInsert (k : String) (v : α) : List (String × α) → List (String × α)
  | [] => [(k, v)]
  | (k', v') :: rest =>
    if k' = k then (k, v) :: rest else (k', v') :: dictInsert k v rest

/-- Python `del d[k]` on an association list (keys are unique). -/
def dictRemove (k : String) (m : List (String × α)) : List (String × α) :=
  m.filter fun kv => decide (kv.1 ≠ k)

/-- Model of `CacheManager` state: `_cache_data` and the persisted file. -/
structure CacheState (α : Type) where
  mem : List (String × α)
  file : List (String × α)
deriving DecidableEq

/-- Model of `CacheManager._save_cache`. -/
def save_cache (st : CacheState α) : CacheState α :=
  { st with file := st.mem }

/-- Model of `CacheManager._get_cache_key`: a truthy `sample_id` is used verbatim if
it already starts with `"sample_"`, else prefixed; otherwise the key is
`"custom_"` plus the content hash of the text. -/
def get_cache_key (hash : String → String) (text : String)
    (sample_id : Option String) : String :=
  match sample_id with
  | some sid =>
    if sid = "" then "custom_" ++ hash text
    else if pyStartsWith sid "sample_" then sid
    else "sample_" ++ sid
  | none => "custom_" ++ hash text

/-- Model of `CacheManager.get_cached_result`. -/
def get_cached_result (hash : String → String) (text : String)
    (sample_id : Option String) (st : CacheState α) : Option α :=
  st.mem.lookup (get_cache_key hash text sample_id)

/-- Model of `CacheManager.cache_result`: store under the derived key and persist. -/
def cache_result (hash : String → String) (text : String) (result : α)
    (sample_id : Option String) (st : CacheState α) : CacheState α :=
  save_cache { st with mem := dictInsert (get_cache_key hash text sample_id) result st.mem }

/-- Model of `CacheManager.remove_sample`: looks up the literal key
`"sample_" + sample_id`; deletes and persists on a hit, otherwise leaves
the state untouched.  Returns `(removed?, new state)`. -/
def remove_sample (sample_id : String) (st : CacheState α) :
    Bool × CacheState α :=
  let cache_key := "sample_" ++ sample_id
  if (st.mem.lookup cache_key).isSome then
    (true, save_cache { st with mem := dictRemove cache_key st.mem })
  else
    (false, st)

/-- Model of `CacheManager.clear_cache`. -/
def clear_cache (_st : CacheState α) : CacheState α :=
  save_cache { mem := [], file := _st.file }

/-! Spec-side definitions

These transcribe the specification's own descriptions (spec.md §4.4 and
§4.5), structured independently of the implementation, so that refinement
claims compare two genuinely different formulations.
-/

/-- A truthy (`None`-free, non-empty) label. -/
def hasTruthyLabel (s : Segment) : Bool :=
  match s.label with
  | some l => l ≠ ""
  | none => false

/-- The distinct elements of a list in first-appearance order (the spec's
"groups are ordered by the label's first appearance"). -/
def firstSeen : List String → List String
  | [] => []
  | l :: ls => l :: (firstSeen ls).filter fun x => decide (x ≠ l)

/-- Transcribed from the spec's §4.4 order description: all PREFIX segments
in original order, then the BODY segments regrouped by label — groups in
first-appearance order of the labels, original order inside each group —
then all SUFFIX segments in original order. -/
def organize_segments_spec (segments : List Segment) : List Segment :=
  let pre := segments.filter fun s => decide (s.type = .PREFIX)
  let bodyS := segments.filter fun s => decide (s.type = .BODY)
  let suf := segments.filter fun s => decide (s.type = .SUFFIX)
  pre ++
    ((firstSeen (bodyS.filterMap Segment.label)).flatMap fun l =>
      bodyS.filter fun s => decide (s.label = some l)) ++
    suf

/-- Spec-side block for an `examination`-labeled group: fixed banner, each
content line with its exam marker stripped, empties dropped. -/
def examBlockSpec (contents : List String) : List String :=
  ["EXAMINATION:", ""] ++
    ((contents.map strip_exam_marker).filter fun c => decide (c ≠ "")) ++ [""]

/-- Spec-side block for every other group: its non-empty content lines with
no heading or banner, then a blank line. -/
def contentBlockSpec (contents : List String) : List String :=
  (contents.filter fun c => decide (c ≠ "")) ++ [""]

/-- Transcribed from the amended prefix-zone rendering description: with a
non-default prefix label present, the PREFIX groups in grouping order each
contribute their block (banner plus stripped lines for `examination`, bare
content lines otherwise); with only default labels, all prefix contents are
joined with blank-line separation. -/
def render_prefix_sections_spec
    (grouped : List (GroupKey × List String))
    (segments : List Segment) : List String :=
  let preGroups := grouped.filter fun g => decide (g.1.1 = ReportSectionType.PREFIX)
  if segments.any (fun seg =>
      decide (seg.type = .PREFIX) && labelTruthyNonDefault seg.label) then
    preGroups.flatMap fun g =>
      if labelIsExam g.1.2 then examBlockSpec g.2 else contentBlockSpec g.2
  else
    let plain := preGroups.flatMap Prod.snd
    if plain.isEmpty then [] else [pyRStrip (String.intercalate "\n\n" plain)]

/-! Helper lemmas -/

lemma flatMap_congr_mem {α β : Type} {f g : α → List β} :
    ∀ (l : List α), (∀ a ∈ l, f a = g a) → l.flatMap f = l.flatMap g
  | [], _ => rfl
  | a :: l, h => by
    simp only [List.flatMap_cons, h a (List.mem_cons_self a l),
      flatMap_congr_mem l fun x hx => h x (List.mem_cons_of_mem a hx)]

/-- Splitting a list into its three zone-filtered sublists permutes it. -/
lemma zone_filter_perm (l : List Segment) :
    List.Perm
      ((l.filter fun s => decide (s.type = .PREFIX)) ++
        ((l.filter fun s => decide (s.type = .BODY)) ++
          (l.filter fun s => decide (s.type = .SUFFIX)))) l := by
  induction l with
  | nil => simp
  | cons a l ih =>
    cases h : a.type with
    | PREFIX =>
      simp only [List.filter_cons, h, decide_eq_true_eq, reduceCtorEq, if_true, if_false,
        reduceIte]
      exact ih.cons a
    | BODY =>
      simp only [List.filter_cons, h, decide_eq_true_eq, reduceCtorEq, if_true, if_false,
        reduceIte]
      exact List.Perm.trans List.perm_middle (ih.cons a)
    | SUFFIX =>
      simp only [List.filter_cons, h, decide_eq_true_eq, reduceCtorEq, if_true, if_false,
        reduceIte]
      rw [← List.append_assoc]
      refine List.Perm.trans List.perm_middle ?_
      rw [List.append_assoc]
      exact ih.cons a

/-- Regrouping a list of labelled segments by a duplicate-free list of
labels covering all of them permutes it. -/
lemma flatMap_label_filter_perm :
    ∀ (ls : List String) (xs : List Segment), ls.Nodup →
      (∀ x ∈ xs, ∃ l ∈ ls, x.label = some l) →
      List.Perm (ls.flatMap fun l => xs.filter fun s => decide (s.label = some l)) xs
  | [], xs, _, hcov => by
    have hx : xs = [] := List.eq_nil_iff_forall_not_mem.2 fun a ha => by
      obtain ⟨l, hl, _⟩ := hcov a ha
      simp at hl
    simp [hx]
  | b :: ls, xs, hnd, hcov => by
    have hb : b ∉ ls := (List.nodup_cons.1 hnd).1
    have hnd' : ls.Nodup := (List.nodup_cons.1 hnd).2
    have hcongr : ∀ l ∈ ls,
        (xs.filter fun s => decide (s.label = some l)) =
          ((xs.filter fun s => !decide (s.label = some b)).filter
            fun s => decide (s.label = some l)) := by
      intro l hl
      rw [List.filter_filter]
      refine (List.filter_congr ?_)
      intro x _
      by_cases hx : x.label = some l
      · have hlb : l ≠ b := fun he => hb (he ▸ hl)
        have hxb : x.label ≠ some b := by simp [hx, hlb]
        simp [hx, hxb, hlb]
      · simp [hx]
    have hcov' : ∀ x ∈ xs.filter fun s => !decide (s.label = some b),
        ∃ l ∈ ls, x.label = some l := by
      intro x hx
      rcases List.mem_filter.1 hx with ⟨hxs, hxb⟩
      obtain ⟨l, hl, hxl⟩ := hcov x hxs
      rcases List.mem_cons.1 hl with hlb | hls
      · exfalso
        rw [hlb] at hxl
        simp [hxl] at hxb
      · exact ⟨l, hls, hxl⟩
    have ih := flatMap_label_filter_perm ls
      (xs.filter fun s => !decide (s.label = some b)) hnd' hcov'
    have e1 : ((b :: ls).flatMap fun l => xs.filter fun s => decide (s.label = some l))
        = (xs.filter fun s => decide (s.label = some b)) ++
            (ls.flatMap fun l =>
              (xs.filter fun s => !decide (s.label = some b)).filter
                fun s => decide (s.label = some l)) := by
      rw [List.flatMap_cons, flatMap_congr_mem ls hcongr]
    rw [e1]
    exact List.Perm.trans (List.Perm.append_left _ ih) (List.filter_append_perm _ xs)

/-- Model of `collectLabels` only ever extends its accumulator. -/
lemma mem_collectLabels_of_mem_acc :
    ∀ (bs : List Segment) (acc : List String) (x : String),
      x ∈ acc → x ∈ collectLabels acc bs
  | [], _, _, hx => hx
  | s :: rest, acc, x, hx => by
    unfold collectLabels
    cases s.label with
    | none => exact mem_collectLabels_of_mem_acc rest acc x hx
    | some l =>
      by_cases hle : l = ""
      · simp only [hle, if_true]
        exact mem_collectLabels_of_mem_acc rest acc x hx
      · simp only [hle, if_false]
        by_cases hla : l ∈ acc
        · simp only [hla, if_true]
          exact mem_collectLabels_of_mem_acc rest acc x hx
        · simp only [hla, if_false]
          exact mem_collectLabels_of_mem_acc rest (acc ++ [l]) x
            (List.mem_append_left _ hx)

/-- Every truthy label of the walked segments ends up in `collectLabels`. -/
lemma mem_collectLabels_of_label :
    ∀ (bs : List Segment) (acc : List String) (x : String),
      (∃ s ∈ bs, s.label = some x ∧ x ≠ "") → x ∈ collectLabels acc bs
  | [], _, _, h => by simp at h
  | s :: rest, acc, x, h => by
    obtain ⟨t, ht, htl, hxe⟩ := h
    rcases List.mem_cons.1 ht with rfl | htr
    · unfold collectLabels
      rw [htl]
      simp only [hxe, if_false]
      by_cases hxa : x ∈ acc
      · simp only [hxa, if_true]
        exact mem_collectLabels_of_mem_acc rest acc x hxa
      · simp only [hxa, if_false]
        exact mem_collectLabels_of_mem_acc rest (acc ++ [x]) x
          (List.mem_append_right _ (List.mem_singleton.2 rfl))
    · unfold collectLabels
      cases s.label with
      | none => exact mem_collectLabels_of_label rest acc x ⟨t, htr, htl, hxe⟩
      | some l =>
        by_cases hle : l = ""
        · simp only [hle, if_true]
          exact mem_collectLabels_of_label rest acc x ⟨t, htr, htl, hxe⟩
        · simp only [hle, if_false]
          by_cases hla : l ∈ acc
          · simp only [hla, if_true]
            exact mem_collectLabels_of_label rest acc x ⟨t, htr, htl, hxe⟩
          · simp only [hla, if_false]
            exact mem_collectLabels_of_label rest (acc ++ [l]) x ⟨t, htr, htl, hxe⟩

/-- Model of `collectLabels` keeps its accumulator duplicate-free. -/
lemma nodup_collectLabels :
    ∀ (bs : List Segment) (acc : List String), acc.Nodup →
      (collectLabels acc bs).Nodup
  | [], _, h => h
  | s :: rest, acc, h => by
    unfold collectLabels
    cases s.label with
    | none => exact nodup_collectLabels rest acc h
    | some l =>
      by_cases hle : l = ""
      · simp only [hle, if_true]
        exact nodup_collectLabels rest acc h
      · simp only [hle, if_false]
        by_cases hla : l ∈ acc
        · simp only [hla, if_true]
          exact nodup_collectLabels rest acc h
        · simp only [hla, if_false]
          refine nodup_collectLabels rest (acc ++ [l]) ?_
          simp [List.nodup_append, h, hla]

lemma firstSeen_cons (l : String) (ls : List String) :
    firstSeen (l :: ls) = l :: (firstSeen ls).filter fun x => decide (x ≠ l) :=
  rfl

/-- On segments that all carry truthy labels, the imperative first-seen
label collection agrees with the recursive `firstSeen` of the label list,
relative to an arbitrary accumulator. -/
lemma collectLabels_eq_firstSeen :
    ∀ (bs : List Segment) (acc : List String),
      (∀ s ∈ bs, ∃ l, s.label = some l ∧ l ≠ "") →
      collectLabels acc bs =
        acc ++ (firstSeen (bs.filterMap Segment.label)).filter
          fun x => decide (x ∉ acc)
  | [], acc, _ => by simp [collectLabels, firstSeen]
  | s :: rest, acc, h => by
    obtain ⟨l, hl, hne⟩ := h s (List.mem_cons_self s rest)
    have hrest : ∀ t ∈ rest, ∃ l, t.label = some l ∧ l ≠ "" :=
      fun t ht => h t (List.mem_cons_of_mem s ht)
    have hfm : (s :: rest).filterMap Segment.label =
        l :: rest.filterMap Segment.label := by
      simp [List.filterMap_cons, hl]
    unfold collectLabels
    rw [hl, hfm, firstSeen_cons, List.filter_cons]
    simp only [hne, if_false]
    by_cases hla : l ∈ acc
    · have hdl : decide (l ∉ acc) = false := by simp [hla]
      rw [hdl]
      simp only [hla, if_true, Bool.false_eq_true, if_false]
      rw [collectLabels_eq_firstSeen rest acc hrest, List.filter_filter]
      congr 1
      refine List.filter_congr ?_
      intro x _
      by_cases hxl : x = l
      · simp [hxl, hla]
      · simp [hxl]
    · have hdl : decide (l ∉ acc) = true := by simp [hla]
      rw [hdl]
      simp only [hla, if_false, if_true]
      rw [collectLabels_eq_firstSeen rest (acc ++ [l]) hrest,
        List.append_assoc, List.singleton_append, List.filter_filter]
      congr 2
      refine List.filter_congr ?_
      intro x _
      have hiff : (x ∉ acc ++ [l]) ↔ (x ∉ acc ∧ x ≠ l) := by
        simp [List.mem_append, not_or]
      rw [decide_eq_decide.2 hiff, Bool.decide_and, Bool.and_comm]

/-- The renderer's guarded per-content loop is the stripped-then-filtered
content list. -/
lemma flatMap_guard_map (f : String → String) :
    ∀ cs : List String,
      (cs.flatMap fun c => if f c ≠ "" then [f c] else []) =
        (cs.map f).filter fun c => decide (c ≠ "")
  | [] => rfl
  | c :: cs => by
    rw [List.flatMap_cons, flatMap_guard_map f cs, List.map_cons, List.filter_cons]
    by_cases hc : f c = ""
    · simp [hc]
    · simp [hc]

/-- The renderer's guarded identity loop is the non-empty filter. -/
lemma flatMap_guard_id :
    ∀ cs : List String,
      (cs.flatMap fun c => if c ≠ "" then [c] else []) =
        cs.filter fun c => decide (c ≠ "")
  | [] => rfl
  | c :: cs => by
    rw [List.flatMap_cons, flatMap_guard_id cs, List.filter_cons]
    by_cases hc : c = ""
    · simp [hc]
    · simp [hc]

/-- A dict write is visible at its own key. -/
lemma lookup_dictInsert_self (k : String) (v : α) :
    ∀ m : List (String × α), (dictInsert k v m).lookup k = some v
  | [] => by simp [dictInsert, List.lookup]
  | (k', v') :: rest => by
    by_cases hk : k' = k
    · simp [dictInsert, hk, List.lookup]
    · have : (k == k') = false := by
        simp [BEq.comm]
        exact fun he => hk he.symm
      simp [dictInsert, hk, List.lookup, this, lookup_dictInsert_self k v rest]

/-- A deleted key is gone. -/
lemma lookup_dictRemove_self (k : String) :
    ∀ m : List (String × α), (dictRemove k m).lookup k = none
  | [] => by simp [dictRemove, List.lookup]
  | (k', v') :: rest => by
    have ih := lookup_dictRemove_self k rest
    unfold dictRemove at ih ⊢
    rw [List.filter_cons]
    by_cases hk : k' = k
    · have hne : decide (k' ≠ k) = false := by simp [hk]
      rw [hne]
      simp only [Bool.false_eq_true, if_false]
      exact ih
    · have hne : decide (k' ≠ k) = true := by simp [hk]
      have hbe : (k == k') = false := beq_eq_false_iff_ne.2 fun he => hk he.symm
      rw [hne]
      simp only [if_true]
      rw [List.lookup_cons]
      rw [hbe]
      exact ih

/-- Body segments drawn out of a list whose BODY members all have truthy
labels again have truthy labels. -/
lemma truthy_body_filter (segments : List Segment)
    (h : ∀ s ∈ segments, s.type = .BODY → hasTruthyLabel s = true) :
    ∀ s ∈ segments.filter fun s => decide (s.type = .BODY),
      ∃ l, s.label = some l ∧ l ≠ "" := by
  intro s hs
  rcases List.mem_filter.1 hs with ⟨hmem, hty⟩
  have htr := h s hmem (of_decide_eq_true hty)
  unfold hasTruthyLabel at htr
  cases hl : s.label with
  | none => rw [hl] at htr; simp at htr
  | some l => rw [hl] at htr; exact ⟨l, rfl, of_decide_eq_true htr⟩

/-- The interval resolver emits at most one interval per extraction. -/
lemma intervals_length_le_one (ci : Option (PyObj × PyObj)) :
    (get_intervals_from_extraction_dict ci).length ≤ 1 := by
  unfold get_intervals_from_extraction_dict
  cases ci with
  | none => simp
  | some p =>
    obtain ⟨sp, ep⟩ := p
    rcases h : extract_positions sp ep with ⟨a, b⟩
    cases a <;> cases b <;> simp [h]

/-- A mapped extraction always expands to exactly one segment. -/
lemma create_segments_length (st : ReportSectionType) (l c : String)
    (ivs : List FrontendInterval) (sg : Option String) (h : ivs.length ≤ 1) :
    (create_segments_for_intervals st l c ivs sg).length = 1 := by
  match ivs with
  | [] => simp [create_segments_for_intervals]
  | [iv] => simp [create_segments_for_intervals]
  | a :: b :: t => simp at h

/-- Concrete inputs used by the counterexamples and witnesses below. -/
def exMalformedInterval : Extraction where
  extraction_text := "Normal lungs."
  extraction_class := "findings_body"
  attributes := none
  char_interval := some (.pyInt 5, .pyInt 3)
  alignment_status := none

def dupSeg : Segment where
  type := .PREFIX
  label := some "prefix"
  content := " x "
  intervals := []
  significance := none

def unlabeledBody : Segment where
  type := .BODY
  label := none
  content := "No acute findings."
  intervals := []
  significance := none

def emptyLabelBody : Segment where
  type := .BODY
  label := some ""
  content := "p<0.001"
  intervals := []
  significance := none

def techSeg : Segment where
  type := .PREFIX
  label := some "technique"
  content := "CT chest"
  intervals := []
  significance := none

def exBasic : Extraction where
  extraction_text := "t"
  extraction_class := "findings_body"
  attributes := none
  char_interval := none
  alignment_status := none

def segBasic : Segment where
  type := .BODY
  label := some "body"
  content := "t"
  intervals := []
  significance := none

/-- A concrete stand-in content hash, for closed statements. -/
def hashConst : String → String := fun _ => "h"

/-! Claims -/

/-- C1 (code bug exhibit): for the extraction whose character interval is
`start_pos = 5`, `end_pos = 3`, the builder propagates the malformed
interval `{startPos := 5, endPos := 3}` verbatim instead of treating it as
absent, violating the documented invariant `end > start >= 0`
(spec.md §3/§4.2, and the `endPos > startPos >= 0` assertions of
`test_validation.py`). -/
theorem interval_invariant_violated :
    build_segments_from_langextract_result [exMalformedInterval] =
      [{ type := .BODY, label := some "body", content := "Normal lungs.",
         intervals := [{ startPos := 5, endPos := 3 }], significance := none }] ∧
    (∃ s ∈ build_segments_from_langextract_result [exMalformedInterval],
      ∃ iv ∈ s.intervals, ¬ (iv.endPos > iv.startPos)) := by
  refine ⟨by decide, by decide⟩

/-- C2 (code bug exhibit): two segments in the same `(zone, label)` group
with the identical content `" x "` are grouped — and rendered — as two
content lines, because the membership test uses the raw content while the
stored entries are stripped; the claim (and the grouping function's own
docstring) require a single line. -/
theorem renderer_dedup_violated :
    group_segments_by_type_and_label [dupSeg, dupSeg] =
      [((ReportSectionType.PREFIX, some "prefix"), ["x", "x"])] ∧
    format_segments_to_text [dupSeg, dupSeg] = "x\n\nx" := by
  refine ⟨by decide, by decide⟩

/-- C3 (counterexample): the organizer is not a permutation on arbitrary
segment lists — a BODY segment whose label is `None` is dropped outright,
so the output multiset differs from the input's. -/
theorem organizer_not_perm_counterexample :
    organize_segments_by_label [unlabeledBody] = [] ∧
    ¬ List.Perm (organize_segments_by_label [unlabeledBody]) [unlabeledBody] := by
  refine ⟨by decide, by decide⟩

/-- C3 (amended): on every segment list whose BODY segments all carry a
non-`None`, non-empty label, organizing permutes the list — nothing is
dropped, duplicated or modified — and the output decomposes as a PREFIX
block, then a BODY block, then a SUFFIX block. -/
theorem organizer_stable_perm (segments : List Segment)
    (h : ∀ s ∈ segments, s.type = .BODY → hasTruthyLabel s = true) :
    List.Perm (organize_segments_by_label segments) segments ∧
    ∃ pre mid suf,
      organize_segments_by_label segments = pre ++ mid ++ suf ∧
      (∀ s ∈ pre, s.type = .PREFIX) ∧
      (∀ s ∈ mid, s.type = .BODY) ∧
      (∀ s ∈ suf, s.type = .SUFFIX) := by
  have hb1 := truthy_body_filter segments h
  have hnd := nodup_collectLabels
    (segments.filter fun s => decide (s.type = .BODY)) [] List.nodup_nil
  have hcov : ∀ x ∈ segments.filter fun s => decide (s.type = .BODY),
      ∃ l ∈ collectLabels [] (segments.filter fun s => decide (s.type = .BODY)),
        x.label = some l := by
    intro x hx
    obtain ⟨l, hl, hne⟩ := hb1 x hx
    exact ⟨l, mem_collectLabels_of_label _ [] l ⟨x, hx, hl, hne⟩, hl⟩
  have hmid := flatMap_label_filter_perm
    (collectLabels [] (segments.filter fun s => decide (s.type = .BODY)))
    (segments.filter fun s => decide (s.type = .BODY)) hnd hcov
  constructor
  · show List.Perm
      ((segments.filter fun s => decide (s.type = .PREFIX)) ++
        ((collectLabels [] (segments.filter fun s => decide (s.type = .BODY))).flatMap
          fun l => (segments.filter fun s => decide (s.type = .BODY)).filter
            fun s => decide (s.label = some l)) ++
        (segments.filter fun s => decide (s.type = .SUFFIX)))
      segments
    refine List.Perm.trans
      (List.Perm.append (List.Perm.append_left _ hmid) (List.Perm.refl _)) ?_
    rw [List.append_assoc]
    exact zone_filter_perm segments
  · refine ⟨_, _, _, rfl, ?_, ?_, ?_⟩
    · intro s hs
      exact of_decide_eq_true (List.mem_filter.1 hs).2
    · intro s hs
      obtain ⟨l, _, hsf⟩ := List.mem_flatMap.1 hs
      exact of_decide_eq_true (List.mem_filter.1 (List.mem_filter.1 hsf).1).2
    · intro s hs
      exact of_decide_eq_true (List.mem_filter.1 hs).2

/-- C3 witness: the amended organizer theorem applied to a concrete
three-zone list. -/
theorem organizer_stable_perm_witness :
    (∀ s ∈ [techSeg, segBasic, dupSeg], s.type = .BODY → hasTruthyLabel s = true) ∧
    (List.Perm (organize_segments_by_label [techSeg, segBasic, dupSeg])
        [techSeg, segBasic, dupSeg] ∧
      ∃ pre mid suf,
        organize_segments_by_label [techSeg, segBasic, dupSeg] = pre ++ mid ++ suf ∧
        (∀ s ∈ pre, s.type = .PREFIX) ∧
        (∀ s ∈ mid, s.type = .BODY) ∧
        (∀ s ∈ suf, s.type = .SUFFIX)) :=
  ⟨by decide, organizer_stable_perm [techSeg, segBasic, dupSeg] (by decide)⟩

/-- C4 (counterexample): a BODY segment with an empty label is absent from
the organizer's output, so the output is not "all PREFIX, then the BODY
segments regrouped by label, then all SUFFIX" for arbitrary lists. -/
theorem organizer_order_counterexample :
    organize_segments_by_label [emptyLabelBody] = [] ∧
    emptyLabelBody ∉ organize_segments_by_label [emptyLabelBody] := by
  refine ⟨by decide, by decide⟩

/-- C4 (amended): on every segment list whose BODY segments all carry a
non-empty label, the organizer's output is exactly the spec's order: all
PREFIX segments in original order, then the BODY segments regrouped by
label (groups in first-appearance order, original order within a group),
then all SUFFIX segments in original order. -/
theorem organizer_order (segments : List Segment)
    (h : ∀ s ∈ segments, s.type = .BODY → hasTruthyLabel s = true) :
    organize_segments_by_label segments = organize_segments_spec segments := by
  have hb1 := truthy_body_filter segments h
  show (segments.filter fun s => decide (s.type = .PREFIX)) ++
      ((collectLabels [] (segments.filter fun s => decide (s.type = .BODY))).flatMap
        fun l => (segments.filter fun s => decide (s.type = .BODY)).filter
          fun s => decide (s.label = some l)) ++
      (segments.filter fun s => decide (s.type = .SUFFIX)) =
    (segments.filter fun s => decide (s.type = .PREFIX)) ++
      ((firstSeen ((segments.filter fun s => decide (s.type = .BODY)).filterMap
          Segment.label)).flatMap
        fun l => (segments.filter fun s => decide (s.type = .BODY)).filter
          fun s => decide (s.label = some l)) ++
      (segments.filter fun s => decide (s.type = .SUFFIX))
  have hfs : List.filter (fun x => decide (x ∉ ([] : List String)))
      (firstSeen ((segments.filter fun s =>
        decide (s.type = ReportSectionType.BODY)).filterMap Segment.label)) =
      firstSeen ((segments.filter fun s =>
        decide (s.type = ReportSectionType.BODY)).filterMap Segment.label) :=
    List.filter_eq_self.2 fun x _ => by simp
  rw [collectLabels_eq_firstSeen _ [] hb1, List.nil_append, hfs]

/-- C4 witness: the amended ordering theorem applied to a concrete list
with interleaved BODY labels. -/
theorem organizer_order_witness :
    (∀ s ∈ [segBasic, techSeg, segBasic], s.type = .BODY → hasTruthyLabel s = true) ∧
    organize_segments_by_label [segBasic, techSeg, segBasic] =
      organize_segments_spec [segBasic, techSeg, segBasic] :=
  ⟨by decide, organizer_order [segBasic, techSeg, segBasic] (by decide)⟩

/-- C7: the number of segments the builder emits equals the number of
extractions whose class maps to a zone — each mapped extraction expands to
exactly one segment (its resolved-interval count is 0 or 1), and unmapped
extractions contribute none. -/
theorem segment_count (exs : List Extraction) :
    (build_segments_from_langextract_result exs).length =
      (exs.filter fun e => (map_section e.extraction_class).isSome).length := by
  induction exs with
  | nil => rfl
  | cons e rest ih =>
    unfold build_segments_from_langextract_result at ih ⊢
    rw [List.flatMap_cons, List.filter_cons, List.length_append]
    cases hm : map_section e.extraction_class with
    | none => simp [hm, ih]
    | some st =>
      rw [create_segments_length st _ _ _ _ (intervals_length_le_one _)]
      simp [hm, ih, Nat.add_comm]

/-- C8: a report text that is empty or whitespace-only makes `predict`
raise `ValueError` to its caller before the pipeline runs (the result
holds for every pipeline), rather than returning the error-payload
dictionary reserved for pipeline failures. -/
theorem empty_input_raises (pipeline : String → Except PyExc (List Extraction))
    (promptGen : String → String) (report_text : String)
    (h : pyStrip report_text = "") :
    predict pipeline promptGen report_text =
      .error (.valueError "Report text cannot be empty") := by
  unfold predict
  rw [if_pos h]

/-- C8 witness: `predict` on a whitespace-only input. -/
theorem empty_input_raises_witness :
    pyStrip "  \n\t " = "" ∧
    predict (fun _ => .ok []) (fun _ => "") "  \n\t " =
      .error (.valueError "Report text cannot be empty") :=
  ⟨by decide, empty_input_raises (fun _ => .ok []) (fun _ => "") "  \n\t " (by decide)⟩

/-- C10: every segment the builder emits has a truthy label — the
extraction's non-empty `section` attribute, or else the zone display name —
which is exactly the precondition under which the organizer loses
nothing. -/
theorem builder_labels_truthy (exs : List Extraction) (s : Segment)
    (h : s ∈ build_segments_from_langextract_result exs) :
    ∃ l, s.label = some l ∧ l ≠ "" := by
  unfold build_segments_from_langextract_result at h
  obtain ⟨e, _, hs⟩ := List.mem_flatMap.1 h
  cases hm : map_section e.extraction_class with
  | none => rw [hm] at hs; simp at hs
  | some st =>
    rw [hm] at hs
    have hs' : s ∈ create_segments_for_intervals st
        (determine_section_label e.attributes st) e.extraction_text
        (get_intervals_from_extraction_dict e.char_interval)
        (extract_clinical_significance e.attributes) := by
      simpa using hs
    have hlbl : determine_section_label e.attributes st ≠ "" := by
      unfold determine_section_label
      cases e.attributes with
      | none => cases st <;> decide
      | some attrs =>
        by_cases he : attrs.isEmpty
        · simp only [he, if_true]
          cases st <;> decide
        · simp only [he, if_false]
          cases hl : attrs.lookup "section" with
          | none => cases st <;> decide
          | some v =>
            by_cases hv : v = ""
            · simp only [hv, if_true]
              cases st <;> decide
            · simp only [hv, if_false]
              exact hv
    unfold create_segments_for_intervals at hs'
    by_cases hiv :
        (get_intervals_from_extraction_dict e.char_interval).isEmpty = true
    · rw [if_pos hiv] at hs'
      rcases List.mem_singleton.1 hs' with rfl
      exact ⟨determine_section_label e.attributes st, rfl, hlbl⟩
    · rw [if_neg hiv] at hs'
      obtain ⟨iv, _, rfl⟩ := List.mem_map.1 hs'
      exact ⟨determine_section_label e.attributes st, rfl, hlbl⟩

/-- C10 witness: the label invariant at a concrete builder output. -/
theorem builder_labels_truthy_witness :
    segBasic ∈ build_segments_from_langextract_result [exBasic] ∧
    ∃ l, segBasic.label = some l ∧ l ≠ "" :=
  ⟨by decide, builder_labels_truthy [exBasic] segBasic (by decide)⟩

/-- C5 (counterexample): after `cache_result` stores a payload for the id
`"sample_7"` (the key function avoids the double prefix, storing under
`"sample_7"` itself), `remove_sample "sample_7"` looks up the literal key
`"sample_sample_7"`, finds nothing, and returns `false` — even though the
entry is present and retrievable. -/
theorem remove_after_cache_fails :
    get_cached_result hashConst "text" (some "sample_7")
      (cache_result hashConst "text" "payload" (some "sample_7")
        { mem := [], file := [] }) = some "payload" ∧
    (remove_sample "sample_7"
      (cache_result hashConst "text" "payload" (some "sample_7")
        { mem := [], file := [] })).1 = false := by
  refine ⟨by decide, by decide⟩

/-- C5 (amended): `remove_sample id` removes the literal key
`"sample_" + id` when present — persisting the store and making a
subsequent `get` for that id absent — and returns `false` leaving the
state untouched otherwise; the `cache_result`-then-`remove_sample`
round trip returns `true` for ids that are non-empty and not already
`"sample_"`-prefixed. -/
theorem remove_sample_semantics {α : Type} (st : CacheState α) (id : String)
    (hash : String → String) (text : String) (v : α)
    (hid : id ≠ "") (hpre : pyStartsWith id "sample_" = false) :
    ((remove_sample id st).1 = (st.mem.lookup ("sample_" ++ id)).isSome) ∧
    ((st.mem.lookup ("sample_" ++ id)).isSome = false →
      remove_sample id st = (false, st)) ∧
    ((st.mem.lookup ("sample_" ++ id)).isSome = true →
      (remove_sample id st).2.mem.lookup ("sample_" ++ id) = none ∧
      (remove_sample id st).2.file = (remove_sample id st).2.mem ∧
      get_cached_result hash text (some id) (remove_sample id st).2 = none) ∧
    (remove_sample id (cache_result hash text v (some id) st)).1 = true := by
  have hkey : get_cache_key hash text (some id) = "sample_" ++ id := by
    simp [get_cache_key, hid, hpre]
  refine ⟨?_, ?_, ?_, ?_⟩
  · by_cases hs : (st.mem.lookup ("sample_" ++ id)).isSome = true
    · simp [remove_sample, hs]
    · simp [remove_sample, hs]
  · intro hs
    simp [remove_sample, hs]
  · intro hs
    refine ⟨?_, ?_, ?_⟩
    · simp [remove_sample, hs, save_cache, lookup_dictRemove_self]
    · simp [remove_sample, hs, save_cache]
    · simp [remove_sample, hs, save_cache, get_cached_result, hkey,
        lookup_dictRemove_self]
  · simp [remove_sample, cache_result, save_cache, hkey, lookup_dictInsert_self]

/-- A concrete one-entry store, for the C5 witness. -/
def stW : CacheState Nat where
  mem := [("sample_a", 1)]
  file := []

/-- C5 witness: the amended remove semantics at a concrete store. -/
theorem remove_sample_semantics_witness :
    ("a" ≠ "" ∧ pyStartsWith "a" "sample_" = false) ∧
    (((remove_sample "a" stW).1 =
        (stW.mem.lookup ("sample_" ++ "a")).isSome) ∧
      ((stW.mem.lookup ("sample_" ++ "a")).isSome = false →
        remove_sample "a" stW = (false, stW)) ∧
      ((stW.mem.lookup ("sample_" ++ "a")).isSome = true →
        (remove_sample "a" stW).2.mem.lookup ("sample_" ++ "a") = none ∧
        (remove_sample "a" stW).2.file = (remove_sample "a" stW).2.mem ∧
        get_cached_result hashConst "t" (some "a")
          (remove_sample "a" stW).2 = none) ∧
      (remove_sample "a" (cache_result hashConst "t" 2 (some "a") stW)).1 = true) :=
  ⟨⟨by decide, by decide⟩,
    remove_sample_semantics stW "a" hashConst "t" 2 (by decide) (by decide)⟩

/-- C6 (counterexample): the empty string is a given (`some`) sample id,
yet — being falsy in Python — it is routed to the content-hash branch: the
key is `"custom_" ++ hash text`, not `"sample_" ++ id`. -/
theorem cache_key_empty_id :
    get_cache_key hashConst "text" (some "") = "custom_h" ∧
    pyStartsWith (get_cache_key hashConst "text" (some "")) "sample_" = false := by
  refine ⟨by decide, by decide⟩

/-- C6 (amended): the key function is a pure function of `(text, id)`; a
non-empty id yields `"sample_" + id` without double-prefixing an already
prefixed id; an absent id yields `"custom_"` plus the content hash, so
identical text without an id always lands on one key (a second write for
the same text overwrites the first). -/
theorem cache_key_derivation {α : Type} (hash : String → String)
    (text : String) (sid : String) (st : CacheState α) (v₁ v₂ : α)
    (h : sid ≠ "") :
    get_cache_key hash text (some sid) =
      (if pyStartsWith sid "sample_" then sid else "sample_" ++ sid) ∧
    get_cache_key hash text none = "custom_" ++ hash text ∧
    get_cached_result hash text none
      (cache_result hash text v₂ none (cache_result hash text v₁ none st)) =
      some v₂ := by
  refine ⟨by simp [get_cache_key, h], rfl, ?_⟩
  simp [get_cached_result, cache_result, save_cache, lookup_dictInsert_self]

/-- C6 witness: the amended key derivation at concrete inputs. -/
theorem cache_key_derivation_witness :
    ("sample_9" ≠ "") ∧
    (get_cache_key hashConst "t" (some "sample_9") =
        (if pyStartsWith "sample_9" "sample_" then "sample_9"
         else "sample_" ++ "sample_9") ∧
      get_cache_key hashConst "t" none = "custom_" ++ hashConst "t" ∧
      get_cached_result hashConst "t" none
        (cache_result hashConst "t" 2 none
          (cache_result hashConst "t" 1 none
            ({ mem := [], file := [] } : CacheState Nat))) = some 2) :=
  ⟨by decide,
    cache_key_derivation hashConst "t" "sample_9"
      { mem := [], file := [] } 1 2 (by decide)⟩

/-- The renderer's guarded zone loop is the zone-filtered flat
concatenation. -/
lemma flatMap_guard_snd :
    ∀ grouped : List (GroupKey × List String),
      (grouped.flatMap fun g =>
        if g.1.1 = ReportSectionType.PREFIX then g.2 else []) =
        (grouped.filter fun g =>
          decide (g.1.1 = ReportSectionType.PREFIX)).flatMap Prod.snd
  | [] => rfl
  | g :: gs => by
    rw [List.flatMap_cons, List.filter_cons, flatMap_guard_snd gs]
    by_cases hg : g.1.1 = ReportSectionType.PREFIX
    · simp [hg]
    · simp [hg]

/-- C9 (counterexample): a prefix group labeled `"technique"` (non-default,
non-`examination`) is rendered as its bare content lines — the renderer
emits no heading for it, contrary to the claim's "under its own
heading". -/
theorem nondefault_group_has_no_heading :
    render_prefix_sections (group_segments_by_type_and_label [techSeg])
      [techSeg] = ["CT chest", ""] ∧
    format_segments_to_text [techSeg] = "CT chest" := by
  refine ⟨by decide, by decide⟩

/-- C9 (amended): the prefix renderer implements exactly the amended
description — whenever some prefix segment carries a truthy non-default
label, every PREFIX group contributes its own block in grouping order: the
`examination`-labeled group under the fixed `EXAMINATION:` banner with the
leading exam token stripped from each line and empties dropped, every
other group as its bare non-empty content lines with no heading and no
banner; with only default labels, all prefix contents are joined with
blank-line separation and no banner. -/
theorem prefix_rendering (grouped : List (GroupKey × List String))
    (segments : List Segment) :
    render_prefix_sections grouped segments =
      render_prefix_sections_spec grouped segments := by
  unfold render_prefix_sections render_prefix_sections_spec
  by_cases hany : (segments.any fun seg =>
      decide (seg.type = .PREFIX) && labelTruthyNonDefault seg.label) = true
  · rw [if_pos hany, if_pos hany]
    induction grouped with
    | nil => rfl
    | cons g gs ih =>
      rw [List.flatMap_cons, List.filter_cons, ih]
      by_cases hg : g.1.1 = ReportSectionType.PREFIX
      · have hng : ¬ (g.1.1 ≠ ReportSectionType.PREFIX) := by simp [hg]
        rw [if_neg hng]
        have hdg : decide (g.1.1 = ReportSectionType.PREFIX) = true := by
          simp [hg]
        rw [hdg, if_pos rfl, List.flatMap_cons]
        by_cases hex : labelIsExam g.1.2 = true
        · rw [if_pos hex, if_pos hex]
          unfold examBlockSpec
          rw [flatMap_guard_map strip_exam_marker g.2]
        · rw [if_neg hex, if_neg hex]
          unfold contentBlockSpec
          rw [flatMap_guard_id g.2]
          by_cases htr : labelTruthyNonDefault g.1.2 = true
          · rw [if_pos htr]
          · rw [if_neg htr]
      · rw [if_pos hg]
        have hdg : decide (g.1.1 = ReportSectionType.PREFIX) = false := by
          simp [hg]
        rw [hdg]
        simp only [Bool.false_eq_true, if_false, List.nil_append]
  · rw [if_neg hany, if_neg hany, flatMap_guard_snd]

end PharmExtract
